import Mathlib

/-!
Verification of the change-analysis and message-synthesis core of
`git-auto-commit.py` (single-file Python program).

The shallow embedding below translates the relevant source functions into
Lean, keeping the source's names where possible:

* `get_staged_files`   (lines 75-90)  — the Change Collector
* `categorize_changes` (lines 92-116) — the Change Classifier
* `analyze_changes`    (lines 143-199) — the Heuristic Message Synthesizer
* `generate_ai_commit_message` (lines 205-267) — Remote Synthesizer Adapter
* `generate_commit_message`    (lines 269-289) — Message Policy Layer

External effects (the git subprocess, the OpenAI transport, printing) are
modelled as explicit inputs: the staged-diff summary is a `String`, the full
diff is a `String`, availability of the `openai` package is a `Bool`, and the
outcome of the one remote chat-completion call is an `Option String`
(`none` = the call raised an exception, which the source catches).  Python
strings are modelled as `String` (lists of characters); Python `str` slicing,
`strip`, `lstrip`, `os.path.splitext`, `os.path.basename` and `str.split` are
embedded below with Python's exact semantics (ASCII character classes stand
in for Python's Unicode-aware ones, which agree on all inputs git produces).
-/

namespace GitAutoCommit

/-- Python whitespace characters (the ASCII part of `\s` / `str.strip`). -/
def isPyWs (c : Char) : Bool :=
  c == ' ' || c == '\t' || c == '\n' || c == '\r' || c == '\x0b' || c == '\x0c'

/-- Python word characters (the ASCII part of the regex class `\w`). -/
def isWordChar (c : Char) : Bool :=
  c.isAlphanum || c == '_'

/-- Python slicing `s[:k]`: for `k ≥ 0` the first `k` characters, for
`k < 0` all but the last `-k` characters (clamped at the empty string). -/
def pySlice (s : String) (k : Int) : String :=
  if 0 ≤ k then ⟨s.data.take k.toNat⟩
  else ⟨s.data.take (s.data.length - min s.data.length (-k).toNat)⟩

/-- Python `str.strip()` with no argument: remove leading and trailing
whitespace. -/
def pyStrip (s : String) : String :=
  ⟨((s.data.dropWhile isPyWs).reverse.dropWhile isPyWs).reverse⟩

/-- Index of the last occurrence of `c`, or `-1` (CPython's `str.rfind`). -/
def rfindAux (c : Char) : List Char → Int → Int → Int
  | [], _, acc => acc
  | x :: xs, i, acc => rfindAux c xs (i + 1) (if x == c then i else acc)

def rfind (s : String) (c : Char) : Int :=
  rfindAux c s.data 0 (-1)

/-- Embeds `os.path.splitext` (posixpath): split at the last `.` that lies
inside the basename, unless every basename character before it is itself a
`.` (so dotfiles like `.bashrc` have no extension). -/
def splitext (p : String) : String × String :=
  let sepIndex := rfind p '/'
  let dotIndex := rfind p '.'
  if sepIndex < dotIndex then
    let fi := (sepIndex + 1).toNat
    let di := dotIndex.toNat
    if ((p.data.drop fi).take (di - fi)).any (fun c => c != '.') then
      (⟨p.data.take di⟩, ⟨p.data.drop di⟩)
    else (p, "")
  else (p, "")

/-- Python `str.lstrip('.')`: remove every leading `.`. -/
def pyLstripDot (s : String) : String :=
  ⟨s.data.dropWhile (fun c => c == '.')⟩

/-- The extension key the classifier derives from a path
(`os.path.splitext` followed by `lstrip('.')`, source lines 111-112). -/
def extOf (p : String) : String :=
  pyLstripDot (splitext p).2

/-- Embeds `os.path.basename` (posixpath): everything after the last `/`. -/
def basename (p : String) : String :=
  ⟨(p.data.reverse.takeWhile (fun c => c != '/')).reverse⟩

/-- Python `str.split('\n')` on a character list (keeps empty pieces). -/
def splitChar (sep : Char) : List Char → List (List Char)
  | [] => [[]]
  | c :: rest =>
    match splitChar sep rest with
    | [] => [[]]
    | g :: gs => if c = sep then [] :: g :: gs else (c :: g) :: gs

/-- Python `staged_diff.split('\n')`. -/
def pySplitNl (s : String) : List String :=
  (splitChar '\n' s.data).map (fun g => ⟨g⟩)

/-- One bucket of the classifier's `categories` dict: a count and the
list of file paths (source lines 94-100). -/
structure Cat where
  count : Nat
  files : List String

/-- The five fixed status buckets `A`, `M`, `D`, `R`, `C`. -/
structure Cats where
  a : Cat
  m : Cat
  d : Cat
  r : Cat
  c : Cat

def emptyCats : Cats :=
  ⟨⟨0, []⟩, ⟨0, []⟩, ⟨0, []⟩, ⟨0, []⟩, ⟨0, []⟩⟩

/-- The per-entry status update of `categorize_changes` (lines 106-108):
recognized statuses are counted and bucketed, anything else is skipped. -/
def catsAdd (cats : Cats) (status : Char) (path : String) : Cats :=
  if status = 'A' then ⟨⟨cats.a.count + 1, cats.a.files ++ [path]⟩, cats.m, cats.d, cats.r, cats.c⟩
  else if status = 'M' then ⟨cats.a, ⟨cats.m.count + 1, cats.m.files ++ [path]⟩, cats.d, cats.r, cats.c⟩
  else if status = 'D' then ⟨cats.a, cats.m, ⟨cats.d.count + 1, cats.d.files ++ [path]⟩, cats.r, cats.c⟩
  else if status = 'R' then ⟨cats.a, cats.m, cats.d, ⟨cats.r.count + 1, cats.r.files ++ [path]⟩, cats.c⟩
  else if status = 'C' then ⟨cats.a, cats.m, cats.d, cats.r, ⟨cats.c.count + 1, cats.c.files ++ [path]⟩⟩
  else cats

/-- The extension tally update `extensions[ext] = extensions.get(ext, 0) + 1`
(line 114), on an insertion-ordered association list (Python dicts preserve
insertion order). -/
def extAdd : List (String × Nat) → String → List (String × Nat)
  | [], k => [(k, 1)]
  | (k0, v) :: rest, k =>
    if k0 = k then (k0, v + 1) :: rest else (k0, v) :: extAdd rest k

/-- Membership in the classifier's fixed status dict (`status in categories`). -/
def recognizedB (c : Char) : Bool :=
  c == 'A' || c == 'M' || c == 'D' || c == 'R' || c == 'C'

/-- The extension part of the classifier's loop body (lines 110-114):
files whose path has no extension are excluded from the extension tally. -/
def extStep (exts : List (String × Nat)) (sf : Char × String) : List (String × Nat) :=
  if extOf sf.2 ≠ "" then extAdd exts (extOf sf.2) else exts

/-- The loop body of `categorize_changes` (lines 104-114): the status
buckets and the extension tally are updated for each staged file in turn. -/
def categorizeStep (acc : Cats × List (String × Nat)) (sf : Char × String) : Cats × List (String × Nat) :=
  (catsAdd acc.1 sf.1 sf.2, extStep acc.2 sf)

/-- Embeds `categorize_changes` (lines 92-116).  A staged file is a
`(status, path)` pair exactly as produced by the collector. -/
def categorize_changes (staged_files : List (Char × String)) : Cats × List (String × Nat) :=
  staged_files.foldl categorizeStep (emptyCats, [])

/-- `sum(c['count'] for c in categories.values())` (lines 194 and 198). -/
def totalCount (categories : Cats) : Nat :=
  categories.a.count + categories.m.count + categories.d.count + categories.r.count + categories.c.count

/-- The `primary_action` computation of `analyze_changes` (lines 165-171). -/
def primary_action (categories : Cats) : Option String :=
  if categories.a.count > 0 ∧ categories.a.count ≥ categories.m.count + categories.d.count + categories.r.count + categories.c.count then some "Add"
  else if categories.m.count > 0 ∧ categories.m.count ≥ categories.a.count + categories.d.count + categories.r.count + categories.c.count then some "Update"
  else if categories.d.count > 0 ∧ categories.d.count ≥ categories.a.count + categories.m.count + categories.r.count + categories.c.count then some "Remove"
  else none

/-- The fixed extension → scope table of `analyze_changes` (lines 177-188). -/
def extTable (ext : String) : Option String :=
  if ext = "js" ∨ ext = "ts" then some "JavaScript"
  else if ext = "py" then some "Python"
  else if ext = "css" ∨ ext = "scss" then some "styles"
  else if ext = "html" then some "HTML"
  else if ext = "md" ∨ ext = "txt" then some "documentation"
  else if ext = "json" ∨ ext = "yaml" ∨ ext = "yml" ∨ ext = "toml" then some "configuration"
  else none

/-- The `scope` computation of `analyze_changes` (lines 174-188):
only when the extension dict has exactly one key, look that key up. -/
def scope_of (extensions : List (String × Nat)) : Option String :=
  match extensions with
  | [(ext, _)] => extTable ext
  | _ => none

/-- The multi-file part of `analyze_changes` (lines 164-199). -/
def multi_file_message (categories : Cats) (extensions : List (String × Nat)) : String :=
  match primary_action categories, scope_of extensions with
  | some action, some scope => action ++ " " ++ scope ++ " files"
  | some action, none => action ++ " " ++ toString (totalCount categories) ++ " files"
  | none, _ => "Update " ++ toString (totalCount categories) ++ " files"

/-- Embeds `analyze_changes` (lines 143-199).  The `repo` parameter of the
source is unused by this function and is dropped; the source also computes
`most_changed_category` (line 148), which it never reads, so it is omitted.
A single staged file with status outside `A`/`M`/`D`/`R` falls through to
the multi-file code, exactly as the Python `if` chain does. -/
def analyze_changes (staged_files : List (Char × String)) : String :=
  let cx := categorize_changes staged_files
  let single : Option String :=
    match staged_files with
    | [(status, file_path)] =>
      let file_name := basename file_path
      if status = 'A' then some ("Add " ++ file_name)
      else if status = 'M' then some ("Update " ++ file_name)
      else if status = 'D' then some ("Delete " ++ file_name)
      else if status = 'R' then some ("Rename file to " ++ file_name)
      else none
    | _ => none
  match single with
  | some msg => msg
  | none => multi_file_message cx.1 cx.2

/-- The configuration fields read by message generation (`get_config`,
lines 36-44).  `pfx` embeds the source's config key `prefix`; the
`prefixes` list and `openai_model` play no role in the claims.  The source
stores `max_length` as a Python `int` read from configuration; the claims
only concern positive values, so it is a `Nat` here, and every subtraction
involving it below is performed in `Int` exactly as Python does. -/
structure Config where
  pfx : String
  max_length : Nat
  use_ai : Bool
  openai_api_key : String
  conventional_commits : Bool

/-- The truncation step shared verbatim by lines 261-262 and 286-287:
`message[:max_length - 3] + "..."` when the message is too long. -/
def truncateMsg (message : String) (max_length : Nat) : String :=
  if message.length > max_length then pySlice message ((max_length : Int) - 3) ++ "..." else message

/-- Embeds `generate_ai_commit_message` (lines 205-267).
`openai_available` is the module-level `OPENAI_AVAILABLE` flag (lines 17-22);
`diff` is the value of `get_full_diff(repo)`; `remote` is the outcome of the
`client.chat.completions.create` call — `none` means the call raised, which
the source's `except` clause converts to `None` after printing a notice
(lines 265-267).  The 4000-character diff truncation (lines 221-222) only
shapes the prompt sent out, not the returned message, so it does not appear
in the result. -/
def generate_ai_commit_message (openai_available : Bool) (config : Config)
    (diff : String) (remote : Option String) : Option String :=
  if openai_available = false then none
  else if config.openai_api_key = "" then none
  else if diff = "" then none
  else
    match remote with
    | none => none
    | some content =>
      let message := pyStrip content
      let message :=
        if config.pfx ≠ "" ∧ config.conventional_commits = false then config.pfx ++ " " ++ message
        else message
      some (truncateMsg message config.max_length)

/-- Embeds `generate_commit_message` (lines 269-289).  The source tests the
AI result with Python truthiness (`if ai_message:`), so both `None` and an
empty string fall back to the rule-based path. -/
def generate_commit_message (openai_available : Bool) (diff : String)
    (remote : Option String) (staged_files : List (Char × String)) (config : Config) : String :=
  let ai_message :=
    (if config.use_ai then generate_ai_commit_message openai_available config diff remote else none).getD ""
  if ai_message ≠ "" then ai_message
  else
    let message := analyze_changes staged_files
    let message := if config.pfx ≠ "" then config.pfx ++ " " ++ message else message
    truncateMsg message config.max_length

/-- The failure modes of the Change Collector: `NoStagedChanges` embeds the
`sys.exit(1)` on an empty staged diff (lines 80-82), `MalformedStatusLine`
embeds the uncaught exception from `re.match(...).groups()` when a line does
not match `(\w)\s+(.*)` (line 87). -/
inductive CollectError where
  | NoStagedChanges : CollectError
  | MalformedStatusLine : String → CollectError

/-- The regex match `re.match(r'(\w)\s+(.*)', line)` of line 87: one word
character, then at least one whitespace character (matched greedily), then
the rest of the line as the path. -/
def matchStatusLine (line : String) : Option (Char × String) :=
  match line.data with
  | [] => none
  | c :: rest =>
    if isWordChar c ∧ rest.takeWhile isPyWs ≠ [] then some (c, ⟨rest.dropWhile isPyWs⟩)
    else none

/-- The collector's loop over the split lines (lines 84-88): empty lines are
skipped, the first non-matching line aborts the run. -/
def parseStatusLines : List String → Except CollectError (List (Char × String))
  | [] => .ok []
  | line :: rest =>
    if line = "" then parseStatusLines rest
    else
      match matchStatusLine line with
      | none => .error (.MalformedStatusLine line)
      | some p => (parseStatusLines rest).map (fun l => p :: l)

/-- Embeds `get_staged_files` (lines 75-90), with the raw
`git diff --cached --name-status` output supplied as the input string. -/
def get_staged_files (staged_diff : String) : Except CollectError (List (Char × String)) :=
  if staged_diff = "" then .error .NoStagedChanges
  else parseStatusLines (pySplitNl staged_diff)

/-! ### Definitions written from the spec's words (for refinement claims)

Each definition below follows the wording of a spec claim, to be compared
against the corresponding definition translated from the source above. -/

/-- Written from the spec's words: the Change Collector's expected line
shape, "one status letter, whitespace, remaining text as the path". -/
def specExpectedShape (line : String) : Bool :=
  match line.data with
  | [] => false
  | c :: rest => c.isAlpha && !(rest.takeWhile isPyWs).isEmpty

/-- Written from the spec's words: `primaryAction` is found by evaluating,
in the fixed order Add (Added), Update (Modified), Remove (Deleted), whether
that status's count is at least the combined count of all other statuses —
the first that qualifies wins, absent if none qualifies. -/
def primaryActionClaim (categories : Cats) : Option String :=
  let total := totalCount categories
  if total - categories.a.count ≤ categories.a.count then some "Add"
  else if total - categories.m.count ≤ categories.m.count then some "Update"
  else if total - categories.d.count ≤ categories.d.count then some "Remove"
  else none

/-- The claim's rule amended with the positivity requirement the source
imposes (`count > 0` on lines 166, 168, 170). -/
def primaryActionAmended (categories : Cats) : Option String :=
  let total := totalCount categories
  if 0 < categories.a.count ∧ total - categories.a.count ≤ categories.a.count then some "Add"
  else if 0 < categories.m.count ∧ total - categories.m.count ≤ categories.m.count then some "Update"
  else if 0 < categories.d.count ∧ total - categories.d.count ≤ categories.d.count then some "Remove"
  else none

/-- Written from the spec's words: the paths "bucketed under a recognized
status" (the classified files). -/
def classifiedFiles (staged : List (Char × String)) : List String :=
  (staged.filter (fun sf => recognizedB sf.1)).map Prod.snd

/-- Written from the spec's words: scope is present exactly when a single
extension appears across all classified files, mapped through the fixed
table. -/
def scopeClaim (staged : List (Char × String)) : Option String :=
  match ((classifiedFiles staged).filterMap
      (fun p => if extOf p = "" then none else some (extOf p))).dedup with
  | [e] => extTable e
  | _ => none

/-! ### Helper lemmas about strings and truncation -/

theorem mk_length (cs : List Char) : (⟨cs⟩ : String).length = cs.length := rfl

theorem length_data (s : String) : s.length = s.data.length := rfl

theorem ne_empty_of_data_ne_nil (s : String) (h : s.data ≠ []) : s ≠ "" := by
  intro he
  subst he
  exact h rfl

theorem append_ne_empty_right (a b : String) (hb : b ≠ "") : a ++ b ≠ "" := by
  intro h
  have hlen := congrArg String.length h
  rw [String.length_append] at hlen
  apply hb
  obtain ⟨bd⟩ := b
  cases bd with
  | nil => rfl
  | cons c cs =>
    rw [length_data] at hlen
    simp at hlen

theorem append_ne_empty_left (a b : String) (ha : a ≠ "") : a ++ b ≠ "" := by
  intro h
  have hlen := congrArg String.length h
  rw [String.length_append] at hlen
  apply ha
  obtain ⟨ad⟩ := a
  cases ad with
  | nil => rfl
  | cons c cs =>
    rw [length_data] at hlen
    simp at hlen

theorem pySlice_length_nonneg (s : String) (k : Int) (h : 0 ≤ k) :
    (pySlice s k).length = min k.toNat s.data.length := by
  simp [pySlice, h, mk_length, List.length_take]

/-- The shared truncation step never returns more than `max_length`
characters, provided `max_length ≥ 3`. -/
theorem truncateMsg_length_le (m : String) (L : Nat) (h3 : 3 ≤ L) :
    (truncateMsg m L).length ≤ L := by
  unfold truncateMsg
  split
  case isTrue h =>
    rw [String.length_append, pySlice_length_nonneg _ _ (by omega)]
    have ht : ((L : Int) - 3).toNat = L - 3 := by omega
    have hd : ("..." : String).length = 3 := rfl
    rw [ht, hd]
    omega
  case isFalse h => omega

/-- When the message is longer than `max_length ≥ 3`, the truncation step
returns exactly `max_length` characters ending in `"..."`. -/
theorem truncateMsg_truncated (m : String) (L : Nat) (h3 : 3 ≤ L) (h : L < m.length) :
    (truncateMsg m L).length = L ∧ ∃ t, truncateMsg m L = t ++ "..." := by
  constructor
  · unfold truncateMsg
    rw [if_pos (by omega : m.length > L)]
    rw [String.length_append, pySlice_length_nonneg _ _ (by omega)]
    have ht : ((L : Int) - 3).toNat = L - 3 := by omega
    have hd : ("..." : String).length = 3 := rfl
    have hm : m.length = m.data.length := rfl
    rw [ht, hd]
    omega
  · refine ⟨pySlice m ((L : Int) - 3), ?_⟩
    unfold truncateMsg
    rw [if_pos (by omega : m.length > L)]

/-- Whenever the remote adapter returns a message at all, it is already
truncated to the configured limit (for limits of at least 3). -/
theorem generate_ai_length_le (oa : Bool) (cfg : Config) (diff : String)
    (remote : Option String) (h3 : 3 ≤ cfg.max_length) (s : String)
    (hs : generate_ai_commit_message oa cfg diff remote = some s) :
    s.length ≤ cfg.max_length := by
  cases remote with
  | none =>
    simp only [generate_ai_commit_message] at hs
    split_ifs at hs <;> simp at hs
  | some content =>
    simp only [generate_ai_commit_message] at hs
    split_ifs at hs <;> try simp at hs
    all_goals rw [← hs]
    all_goals exact truncateMsg_length_le _ _ h3

/-- The final message of the policy layer is within the configured limit
(for limits of at least 3), on the remote path and the heuristic path alike. -/
theorem generate_commit_length_le (oa : Bool) (diff : String) (remote : Option String)
    (staged : List (Char × String)) (cfg : Config) (h3 : 3 ≤ cfg.max_length) :
    (generate_commit_message oa diff remote staged cfg).length ≤ cfg.max_length := by
  by_cases hai : cfg.use_ai
  · cases hg : generate_ai_commit_message oa cfg diff remote with
    | none =>
      simp only [generate_commit_message, hai, if_true, hg, Option.getD_none]
      simp only [ne_eq, not_true_eq_false, if_false]
      exact truncateMsg_length_le _ _ h3
    | some s =>
      by_cases hs : s = ""
      · subst hs
        simp only [generate_commit_message, hai, if_true, hg, Option.getD_some]
        simp only [ne_eq, not_true_eq_false, if_false]
        exact truncateMsg_length_le _ _ h3
      · simp only [generate_commit_message, hai, if_true, hg, Option.getD_some, ne_eq, hs,
          not_false_eq_true, if_true]
        exact generate_ai_length_le oa cfg diff remote h3 s hg
  · simp only [generate_commit_message, hai, if_false, Option.getD_none]
    simp only [ne_eq, not_true_eq_false, if_false]
    exact truncateMsg_length_le _ _ h3

/-! ### Claim C1 -/

/-- Claim C1, counterexample: the claim asserts the final message length
never exceeds any configured positive `maxLength`; with `max_length = 2`
(a positive integer) the heuristic path yields `"Add ..."`, of length 7,
because Python's `message[:2 - 3]` slices with a negative index. -/
theorem C1_cex :
    generate_commit_message false "" none [('A', "f")] ⟨"", 2, false, "", false⟩ = "Add ..." ∧
    2 < (generate_commit_message false "" none [('A', "f")] ⟨"", 2, false, "", false⟩).length := by
  exact ⟨rfl, by decide⟩

/-- Claim C1 (amended: for every configured `maxLength` of at least 3):
the final message of `generate_commit_message` has length at most
`max_length`; any message the remote path returns is within the limit; and
whenever truncation occurs (pre-truncation length exceeds the limit) the
truncation step returns exactly `max_length` characters ending in `"..."`. -/
theorem C1_amended (oa : Bool) (cfg : Config) (diff : String) (remote : Option String)
    (staged : List (Char × String)) (hL : 3 ≤ cfg.max_length) :
    (generate_commit_message oa diff remote staged cfg).length ≤ cfg.max_length ∧
    (∀ s, generate_ai_commit_message oa cfg diff remote = some s → s.length ≤ cfg.max_length) ∧
    (∀ m : String, cfg.max_length < m.length →
      (truncateMsg m cfg.max_length).length = cfg.max_length ∧
      ∃ t, truncateMsg m cfg.max_length = t ++ "...") :=
  ⟨generate_commit_length_le oa diff remote staged cfg hL,
   fun s hs => generate_ai_length_le oa cfg diff remote hL s hs,
   fun m hm => truncateMsg_truncated m cfg.max_length hL hm⟩

/-- Claim C1, witness for the amended theorem at `max_length = 72`. -/
theorem C1_witness :
    3 ≤ (72 : Nat) ∧
    (generate_commit_message false "" none [('A', "f")] ⟨"feat:", 72, true, "", false⟩).length ≤ 72 :=
  ⟨by decide,
   (C1_amended false ⟨"feat:", 72, true, "", false⟩ "" none [('A', "f")] (by decide)).1⟩

/-! ### Claim C5 -/

/-- Claim C5: every failure of the remote synthesizer (library missing, API
key unconfigured, empty diff, or the remote call raising) yields an absent
result, and with `use_ai` set the policy layer then still returns the
heuristic message with the prefix and truncation applied. -/
theorem C5_remote_failure_falls_back (oa : Bool) (cfg : Config) (diff : String)
    (remote : Option String) (staged : List (Char × String))
    (hai : cfg.use_ai = true)
    (hfail : oa = false ∨ cfg.openai_api_key = "" ∨ diff = "" ∨ remote = none) :
    generate_ai_commit_message oa cfg diff remote = none ∧
    generate_commit_message oa diff remote staged cfg =
      truncateMsg (if cfg.pfx ≠ "" then cfg.pfx ++ " " ++ analyze_changes staged
        else analyze_changes staged) cfg.max_length := by
  have hnone : generate_ai_commit_message oa cfg diff remote = none := by
    unfold generate_ai_commit_message
    rcases hfail with h | h | h | h
    · rw [if_pos h]
    · split_ifs <;> rfl
    · split_ifs <;> rfl
    · subst h
      split_ifs <;> rfl
  refine ⟨hnone, ?_⟩
  simp only [generate_commit_message, hai, if_true, hnone, Option.getD_none]
  simp only [ne_eq, not_true_eq_false, if_false]

/-- Claim C5, witness: a simulated remote failure (library not installed,
empty key, empty diff) with `use_ai = true` still yields the prefixed
heuristic message for a single added `foo.py`. -/
theorem C5_witness :
    generate_ai_commit_message false ⟨"feat:", 72, true, "", false⟩ "" none = none ∧
    generate_commit_message false "" none [('A', "foo.py")] ⟨"feat:", 72, true, "", false⟩ =
      "feat: Add foo.py" := by
  have h := C5_remote_failure_falls_back false ⟨"feat:", 72, true, "", false⟩ "" none
    [('A', "foo.py")] rfl (Or.inl rfl)
  exact ⟨h.1, by rw [h.2]; rfl⟩

/-! ### Helper lemmas about the classifier and the heuristic synthesizer -/

/-- Unfolding of `analyze_changes` on a one-element ChangeSet: the four
status templates, and the fall-through to the multi-file code. -/
theorem analyze_single (st : Char) (p : String) :
    analyze_changes [(st, p)] =
      if st = 'A' then "Add " ++ basename p
      else if st = 'M' then "Update " ++ basename p
      else if st = 'D' then "Delete " ++ basename p
      else if st = 'R' then "Rename file to " ++ basename p
      else multi_file_message (categorize_changes [(st, p)]).1 (categorize_changes [(st, p)]).2 := by
  by_cases h1 : st = 'A'
  · subst h1; rfl
  by_cases h2 : st = 'M'
  · subst h2; rfl
  by_cases h3 : st = 'D'
  · subst h3; rfl
  by_cases h4 : st = 'R'
  · subst h4; rfl
  simp only [analyze_changes, if_neg h1, if_neg h2, if_neg h3, if_neg h4]

/-- Unfolding of `analyze_changes` on a ChangeSet of two or more entries. -/
theorem analyze_multi (sf1 sf2 : Char × String) (rest : List (Char × String)) :
    analyze_changes (sf1 :: sf2 :: rest) =
      multi_file_message (categorize_changes (sf1 :: sf2 :: rest)).1
        (categorize_changes (sf1 :: sf2 :: rest)).2 := rfl

/-- Every branch of the multi-file message ends in `" files"`, so it is
never empty. -/
theorem multi_file_message_ne_empty (cats : Cats) (exts : List (String × Nat)) :
    multi_file_message cats exts ≠ "" := by
  unfold multi_file_message
  split <;> exact append_ne_empty_right _ _ (by decide)

theorem categorize_foldl_fst (staged : List (Char × String)) (acc : Cats × List (String × Nat)) :
    (staged.foldl categorizeStep acc).1 =
      staged.foldl (fun cats sf => catsAdd cats sf.1 sf.2) acc.1 := by
  induction staged generalizing acc with
  | nil => rfl
  | cons sf rest ih => rw [List.foldl_cons, List.foldl_cons, ih]; rfl

theorem categorize_foldl_snd (staged : List (Char × String)) (acc : Cats × List (String × Nat)) :
    (staged.foldl categorizeStep acc).2 = staged.foldl extStep acc.2 := by
  induction staged generalizing acc with
  | nil => rfl
  | cons sf rest ih => rw [List.foldl_cons, List.foldl_cons, ih]; rfl

/-- A status outside the recognized five-letter set leaves every bucket
untouched. -/
theorem catsAdd_unrecognized (cats : Cats) (st : Char) (p : String)
    (h : recognizedB st = false) : catsAdd cats st p = cats := by
  simp only [recognizedB, Bool.or_eq_false_iff, beq_eq_false_iff_ne, ne_eq] at h
  obtain ⟨⟨⟨⟨h1, h2⟩, h3⟩, h4⟩, h5⟩ := h
  simp [catsAdd, h1, h2, h3, h4, h5]

theorem totalCount_catsAdd (cats : Cats) (st : Char) (p : String) :
    totalCount (catsAdd cats st p) =
      if recognizedB st then totalCount cats + 1 else totalCount cats := by
  by_cases h1 : st = 'A'
  · subst h1; simp [catsAdd, recognizedB, totalCount]; omega
  by_cases h2 : st = 'M'
  · subst h2; simp [catsAdd, recognizedB, totalCount]; omega
  by_cases h3 : st = 'D'
  · subst h3; simp [catsAdd, recognizedB, totalCount]; omega
  by_cases h4 : st = 'R'
  · subst h4; simp [catsAdd, recognizedB, totalCount]; omega
  by_cases h5 : st = 'C'
  · subst h5; simp [catsAdd, recognizedB, totalCount]; omega
  have hr : recognizedB st = false := by
    simp [recognizedB, h1, h2, h3, h4, h5]
  rw [catsAdd_unrecognized cats st p hr, hr]
  simp

theorem totalCount_foldl (staged : List (Char × String)) (cats0 : Cats) :
    totalCount (staged.foldl (fun cats sf => catsAdd cats sf.1 sf.2) cats0) =
      totalCount cats0 + (staged.filter (fun sf => recognizedB sf.1)).length := by
  induction staged generalizing cats0 with
  | nil => simp
  | cons sf rest ih =>
    rw [List.foldl_cons, ih, totalCount_catsAdd]
    by_cases h : recognizedB sf.1 <;> simp [List.filter_cons, h] <;> omega

/-- The file count the multi-file messages report sums only the five
recognized status buckets. -/
theorem totalCount_categorize (staged : List (Char × String)) :
    totalCount (categorize_changes staged).1 =
      (staged.filter (fun sf => recognizedB sf.1)).length := by
  unfold categorize_changes
  rw [categorize_foldl_fst, totalCount_foldl]
  simp [totalCount, emptyCats]

theorem foldl_catsAdd_unrecognized (staged : List (Char × String)) (cats0 : Cats)
    (hall : ∀ sf ∈ staged, recognizedB sf.1 = false) :
    staged.foldl (fun cats sf => catsAdd cats sf.1 sf.2) cats0 = cats0 := by
  induction staged generalizing cats0 with
  | nil => rfl
  | cons sf rest ih =>
    rw [List.foldl_cons, catsAdd_unrecognized _ _ _ (hall sf (List.mem_cons_self _ _))]
    exact ih cats0 (fun x hx => hall x (List.mem_cons_of_mem _ hx))

/-- With all buckets empty, no primary action qualifies and the generic
fallback reports zero files. -/
theorem multi_file_message_emptyCats (exts : List (String × Nat)) :
    multi_file_message emptyCats exts = "Update 0 files" := by
  unfold multi_file_message
  have h : primary_action emptyCats = none := rfl
  rw [h]
  cases hs : scope_of exts <;> rfl

/-! ### Claim C2 -/

/-- Claim C2: a one-element ChangeSet with status `A`/`M`/`D`/`R` yields the
corresponding fixed template over the path's basename; the concrete example
`"a/b/foo.py"` yields `"Add foo.py"`; and any other status (including `C`)
is handled by the multi-file path instead. -/
theorem C2_single_file (st : Char) (path : String) :
    analyze_changes [('A', path)] = "Add " ++ basename path ∧
    analyze_changes [('M', path)] = "Update " ++ basename path ∧
    analyze_changes [('D', path)] = "Delete " ++ basename path ∧
    analyze_changes [('R', path)] = "Rename file to " ++ basename path ∧
    (st ≠ 'A' → st ≠ 'M' → st ≠ 'D' → st ≠ 'R' →
      analyze_changes [(st, path)] =
        multi_file_message (categorize_changes [(st, path)]).1
          (categorize_changes [(st, path)]).2) ∧
    analyze_changes [('A', "a/b/foo.py")] = "Add foo.py" := by
  refine ⟨rfl, rfl, rfl, rfl, ?_, rfl⟩
  intro h1 h2 h3 h4
  rw [analyze_single, if_neg h1, if_neg h2, if_neg h3, if_neg h4]

/-- Claim C2, witness: a single Copied file falls through to the multi-file
path. -/
theorem C2_witness :
    analyze_changes [('C', "x.py")] =
      multi_file_message (categorize_changes [('C', "x.py")]).1
        (categorize_changes [('C', "x.py")]).2 :=
  (C2_single_file 'C' "x.py").2.2.2.2.1 (by decide) (by decide) (by decide) (by decide)

/-! ### Claim C4 -/

/-- Claim C4: the heuristic synthesizer is total (its embedding is a total
function) and returns a non-empty string on every non-empty ChangeSet. -/
theorem C4_total_nonempty (staged : List (Char × String)) (h : staged ≠ []) :
    analyze_changes staged ≠ "" := by
  rcases staged with _ | ⟨⟨st, p⟩, rest⟩
  · exact absurd rfl h
  rcases rest with _ | ⟨sf2, rest2⟩
  · rw [analyze_single]
    split_ifs <;>
      first
        | exact append_ne_empty_left _ _ (by decide)
        | exact multi_file_message_ne_empty _ _
  · rw [analyze_multi]
    exact multi_file_message_ne_empty _ _

/-- Claim C4, witness. -/
theorem C4_witness :
    ([('A', "foo.py")] : List (Char × String)) ≠ [] ∧
    analyze_changes [('A', "foo.py")] ≠ "" :=
  ⟨by decide, C4_total_nonempty [('A', "foo.py")] (by decide)⟩

/-! ### Claim C3 -/

/-- The source's primary-action rule coincides with the claim's rule once
positivity (`count > 0`) is added: a status qualifies when its count is
positive and at least the combined count of all other statuses. -/
theorem primary_action_eq_amended (cats : Cats) :
    primary_action cats = primaryActionAmended cats := by
  have hA : (cats.a.count > 0 ∧ cats.a.count ≥ cats.m.count + cats.d.count + cats.r.count + cats.c.count) ↔
      (0 < cats.a.count ∧ totalCount cats - cats.a.count ≤ cats.a.count) := by
    unfold totalCount; omega
  have hM : (cats.m.count > 0 ∧ cats.m.count ≥ cats.a.count + cats.d.count + cats.r.count + cats.c.count) ↔
      (0 < cats.m.count ∧ totalCount cats - cats.m.count ≤ cats.m.count) := by
    unfold totalCount; omega
  have hD : (cats.d.count > 0 ∧ cats.d.count ≥ cats.a.count + cats.m.count + cats.r.count + cats.c.count) ↔
      (0 < cats.d.count ∧ totalCount cats - cats.d.count ≤ cats.d.count) := by
    unfold totalCount; omega
  simp only [primary_action, primaryActionAmended]
  exact if_congr hA rfl (if_congr hM rfl (if_congr hD rfl rfl))

/-- Claim C3, counterexample: on a ChangeSet whose only entry has the
unrecognized status `T`, every recognized count is zero, so by the claim's
rule Add qualifies first (0 is at least the combined count 0 of the other
statuses), while the source requires a positive count and yields no
primary action, producing the generic `"Update 0 files"`. -/
theorem C3_cex :
    primaryActionClaim (categorize_changes [('T', "f")]).1 = some "Add" ∧
    primary_action (categorize_changes [('T', "f")]).1 = none ∧
    analyze_changes [('T', "f")] = "Update 0 files" := ⟨rfl, rfl, rfl⟩

/-- Claim C3 (amended: a status qualifies only when its count is positive
and at least the combined count of all other statuses, evaluated in the
fixed order Add, Update, Remove): the source's rule equals the amended rule,
and the composed example of 5 files (4 Modified, 1 Added, mixed extensions)
yields exactly `"Update 5 files"`. -/
theorem C3_amended (cats : Cats) :
    primary_action cats = primaryActionAmended cats ∧
    analyze_changes [('M', "a.py"), ('M', "b.js"), ('M', "c.ts"), ('M', "d.css"), ('A', "e.html")] =
      "Update 5 files" :=
  ⟨primary_action_eq_amended cats, rfl⟩

/-! ### Claim C7 -/

/-- Claim C7, counterexample: the claim says an entry with a status outside
the recognized set is tallied in the status counts and contributes to the
downstream total; in fact a lone `T`-status file leaves the buckets exactly
empty, the total is 0, and the synthesizer reports `"Update 0 files"`. -/
theorem C7_cex :
    (categorize_changes [('T', "f.py")]).1 = emptyCats ∧
    totalCount (categorize_changes [('T', "f.py")]).1 = 0 ∧
    analyze_changes [('T', "f.py")] = "Update 0 files" := ⟨rfl, rfl, rfl⟩

/-- Claim C7 (amended): an entry with a status outside the recognized
five-letter set is neither tallied in the status counts nor added to any
per-status file list, and the total change count used downstream counts
only entries with recognized statuses. -/
theorem C7_amended (cats : Cats) (st : Char) (p : String) (staged : List (Char × String))
    (h : recognizedB st = false) :
    catsAdd cats st p = cats ∧
    totalCount (categorize_changes staged).1 =
      (staged.filter (fun sf => recognizedB sf.1)).length :=
  ⟨catsAdd_unrecognized cats st p h, totalCount_categorize staged⟩

/-- Claim C7, witness. -/
theorem C7_witness :
    recognizedB 'T' = false ∧ catsAdd emptyCats 'T' "x" = emptyCats :=
  ⟨by decide, (C7_amended emptyCats 'T' "x" [] (by decide)).1⟩

/-! ### Claim C10 -/

/-- Claim C10: when no entry of a non-empty ChangeSet carries a recognized
status, every bucket stays empty and the synthesizer takes the multi-file
path, returning exactly `"Update 0 files"` because the reported total sums
only the recognized buckets. -/
theorem C10_all_unrecognized (staged : List (Char × String)) (hne : staged ≠ [])
    (hall : ∀ sf ∈ staged, recognizedB sf.1 = false) :
    (categorize_changes staged).1 = emptyCats ∧
    analyze_changes staged = "Update 0 files" := by
  have hcats : (categorize_changes staged).1 = emptyCats := by
    unfold categorize_changes
    rw [categorize_foldl_fst]
    exact foldl_catsAdd_unrecognized staged emptyCats hall
  refine ⟨hcats, ?_⟩
  rcases staged with _ | ⟨⟨st, p⟩, rest⟩
  · exact absurd rfl hne
  rcases rest with _ | ⟨sf2, rest2⟩
  · have hr := hall ⟨st, p⟩ (List.mem_cons_self _ _)
    simp only [recognizedB, Bool.or_eq_false_iff, beq_eq_false_iff_ne, ne_eq] at hr
    obtain ⟨⟨⟨⟨h1, h2⟩, h3⟩, h4⟩, h5⟩ := hr
    rw [analyze_single, if_neg h1, if_neg h2, if_neg h3, if_neg h4, hcats]
    exact multi_file_message_emptyCats _
  · rw [analyze_multi, hcats]
    exact multi_file_message_emptyCats _

/-- Claim C10, witness: a single `T`-status file. -/
theorem C10_witness :
    analyze_changes [('T', "f")] = "Update 0 files" :=
  (C10_all_unrecognized [('T', "f")] (by decide) (by decide)).2

/-! ### Claim C8 -/

theorem dropWhile_head_not (p : Char → Bool) (l : List Char) :
    ∀ c, (l.dropWhile p).head? = some c → p c = false := by
  induction l with
  | nil => intro c h; simp [List.dropWhile] at h
  | cons x xs ih =>
    intro c h
    by_cases hx : p x
    · rw [List.dropWhile_cons, if_pos hx] at h
      exact ih c h
    · rw [List.dropWhile_cons, if_neg hx] at h
      simp only [List.head?_cons, Option.some.injEq] at h
      subst h
      simpa using hx

/-- Claim C8, counterexample: the claim says the recorded extension is
lowercase-normalized and that `.PY` maps to scope `"Python"` exactly as
`.py` does; in fact the classifier records the raw suffix `"PY"`, the
whitelist comparison is case-sensitive, and three added `.PY` files yield
`"Add 3 files"`, not `"Add Python files"`. -/
theorem C8_cex :
    (categorize_changes [('A', "a.PY")]).2 = [("PY", 1)] ∧
    ("PY" : String) ≠ "py" ∧
    analyze_changes [('A', "a.PY"), ('A', "b.PY"), ('A', "c.PY")] = "Add 3 files" ∧
    analyze_changes [('A', "a.PY"), ('A', "b.PY"), ('A', "c.PY")] ≠ "Add Python files" :=
  ⟨rfl, by decide, rfl, by decide⟩

/-- Claim C8 (amended): the extension recorded in the tally is the raw
suffix with case preserved and no leading separator (absent when the path
has no extension, and such files are excluded from the tally), and the
synthesizer's whitelist matches case-sensitively, so a ChangeSet whose only
extension is `.PY` gets no scope and falls back to `"Add 3 files"`, unlike
`.py`. -/
theorem C8_amended (st : Char) (p : String) :
    ((extOf p).data.take 1).all (fun c => c != '.') = true ∧
    (categorize_changes [(st, p)]).2 = (if extOf p = "" then [] else [(extOf p, 1)]) ∧
    analyze_changes [('A', "a.PY"), ('A', "b.PY"), ('A', "c.PY")] = "Add 3 files" ∧
    analyze_changes [('A', "a.py"), ('A', "b.py"), ('A', "c.py")] = "Add Python files" := by
  refine ⟨?_, ?_, rfl, rfl⟩
  · unfold extOf pyLstripDot
    cases hh : (splitext p).2.data.dropWhile (fun c => c == '.') with
    | nil => simp [mk_length, hh]
    | cons c cs =>
      have hc := dropWhile_head_not (fun c => c == '.') ((splitext p).2.data) c
        (by rw [hh]; rfl)
      simp only [hh, List.take_succ_cons, List.take_zero, List.all_cons, List.all_nil,
        Bool.and_true, bne]
      simp [hc]
  · by_cases h : extOf p = "" <;>
      simp [categorize_changes, categorizeStep, extStep, extAdd, h]

/-! ### Claim C6 -/

theorem matchStatusLine_empty : matchStatusLine "" = none := rfl

theorem parseStatusLines_ok (ls : List String)
    (h : ∀ l ∈ ls, l ≠ "" → (matchStatusLine l).isSome) :
    parseStatusLines ls = .ok (ls.filterMap matchStatusLine) := by
  induction ls with
  | nil => rfl
  | cons l rest ih =>
    have ihr := ih (fun x hx hne => h x (List.mem_cons_of_mem _ hx) hne)
    by_cases hl : l = ""
    · subst hl
      simp [parseStatusLines, List.filterMap_cons, matchStatusLine_empty, ihr]
    · have hs := h l (List.mem_cons_self _ _) hl
      obtain ⟨pr, hpr⟩ := Option.isSome_iff_exists.mp hs
      simp [parseStatusLines, hl, hpr, List.filterMap_cons, ihr, Except.map]

theorem parseStatusLines_error (ls : List String)
    (h : ∃ l ∈ ls, l ≠ "" ∧ matchStatusLine l = none) :
    ∃ l ∈ ls, l ≠ "" ∧ matchStatusLine l = none ∧
      parseStatusLines ls = .error (.MalformedStatusLine l) := by
  induction ls with
  | nil => simp at h
  | cons l rest ih =>
    by_cases hl : l = ""
    · subst hl
      have h' : ∃ x ∈ rest, x ≠ "" ∧ matchStatusLine x = none := by
        obtain ⟨x, hx, hxne, hxn⟩ := h
        rcases List.mem_cons.mp hx with rfl | hx'
        · exact absurd rfl hxne
        · exact ⟨x, hx', hxne, hxn⟩
      obtain ⟨x, hx, hxne, hxn, hp⟩ := ih h'
      exact ⟨x, List.mem_cons_of_mem _ hx, hxne, hxn, by simpa [parseStatusLines] using hp⟩
    · cases hm : matchStatusLine l with
      | none => exact ⟨l, List.mem_cons_self _ _, hl, hm, by simp [parseStatusLines, hl, hm]⟩
      | some pr =>
        have h' : ∃ x ∈ rest, x ≠ "" ∧ matchStatusLine x = none := by
          obtain ⟨x, hx, hxne, hxn⟩ := h
          rcases List.mem_cons.mp hx with rfl | hx'
          · rw [hm] at hxn; cases hxn
          · exact ⟨x, hx', hxne, hxn⟩
        obtain ⟨x, hx, hxne, hxn, hp⟩ := ih h'
        exact ⟨x, List.mem_cons_of_mem _ hx, hxne, hxn,
          by simp [parseStatusLines, hl, hm, hp, Except.map]⟩

/-- Characterization of a successful line match: the produced pair is the
leading word character together with the line's remaining text verbatim,
after the maximal non-empty whitespace run. -/
theorem matchStatusLine_some (l : String) (c : Char) (rest : String)
    (h : matchStatusLine l = some (c, rest)) :
    isWordChar c = true ∧
    ∃ ws, l.data = c :: ws ++ rest.data ∧ ws ≠ [] ∧ (∀ x ∈ ws, isPyWs x = true) ∧
      (∀ c2, rest.data.head? = some c2 → isPyWs c2 = false) := by
  obtain ⟨ld⟩ := l
  cases ld with
  | nil => simp [matchStatusLine] at h
  | cons c0 tl =>
    simp only [matchStatusLine] at h
    split_ifs at h with hcond
    · obtain ⟨hw, hne⟩ := hcond
      have hinj := Option.some.inj h
      have hc : c0 = c := congrArg Prod.fst hinj
      have hr : (⟨tl.dropWhile isPyWs⟩ : String) = rest := congrArg Prod.snd hinj
      subst hc
      refine ⟨hw, tl.takeWhile isPyWs, ?_, hne, ?_, ?_⟩
      · rw [← hr]
        show c0 :: tl = c0 :: (List.takeWhile isPyWs tl ++ List.dropWhile isPyWs tl)
        rw [List.takeWhile_append_dropWhile]
      · intro x hx
        exact List.mem_takeWhile_imp hx
      · intro c2 hc2
        apply dropWhile_head_not isPyWs tl c2
        rw [← hr] at hc2
        exact hc2

/-- Claim C6, counterexample: the claim requires every non-empty line not
matching "one status letter, whitespace, rest" to abort collection; the
line `"1 foo"` starts with a digit, not a letter, yet the collector accepts
it (Python's `\w` also matches digits and underscore) and returns the pair
`('1', "foo")`. -/
theorem C6_cex :
    specExpectedShape "1 foo" = false ∧
    ("1 foo" : String) ≠ "" ∧
    get_staged_files "1 foo" = .ok [('1', "foo")] :=
  ⟨rfl, by decide, rfl⟩

/-- Claim C6 (amended: the expected shape is one word character — letter,
digit or underscore — then whitespace, then the rest of the line as the
path): on non-empty input, if every non-empty line matches, collection
returns exactly the matched pairs in order; if some non-empty line does not
match, collection fails with `MalformedStatusLine` and no partial result;
and every produced pair is the leading word character with the remainder of
the line verbatim (spaces included) after the whitespace run. -/
theorem C6_amended (input : String) (hne : input ≠ "") :
    ((∀ l ∈ pySplitNl input, l ≠ "" → (matchStatusLine l).isSome) →
      get_staged_files input = .ok ((pySplitNl input).filterMap matchStatusLine)) ∧
    ((∃ l ∈ pySplitNl input, l ≠ "" ∧ matchStatusLine l = none) →
      ∃ l ∈ pySplitNl input, l ≠ "" ∧ matchStatusLine l = none ∧
        get_staged_files input = .error (.MalformedStatusLine l)) ∧
    (∀ l c rest, matchStatusLine l = some (c, rest) →
      isWordChar c = true ∧
      ∃ ws, l.data = c :: ws ++ rest.data ∧ ws ≠ [] ∧ (∀ x ∈ ws, isPyWs x = true) ∧
        (∀ c2, rest.data.head? = some c2 → isPyWs c2 = false)) := by
  refine ⟨?_, ?_, fun l c rest h => matchStatusLine_some l c rest h⟩
  · intro hall
    unfold get_staged_files
    rw [if_neg hne]
    exact parseStatusLines_ok _ hall
  · intro hex
    obtain ⟨l, hl, hlne, hln, hp⟩ := parseStatusLines_error _ hex
    refine ⟨l, hl, hlne, hln, ?_⟩
    unfold get_staged_files
    rw [if_neg hne]
    exact hp

/-- Claim C6, witness: a two-line well-formed input is collected in order. -/
theorem C6_witness :
    get_staged_files "M foo.py\nA bar.js" = .ok [('M', "foo.py"), ('A', "bar.js")] := by
  have h := (C6_amended "M foo.py\nA bar.js" (by decide)).1 (by decide)
  rw [h]
  rfl

/-! ### Claim C9 -/

theorem extAdd_keys (m : List (String × Nat)) (k : String) :
    (extAdd m k).map Prod.fst =
      if k ∈ m.map Prod.fst then m.map Prod.fst else m.map Prod.fst ++ [k] := by
  induction m with
  | nil => simp [extAdd]
  | cons hd tl ih =>
    obtain ⟨k0, v⟩ := hd
    by_cases h : k0 = k
    · subst h
      simp [extAdd]
    · simp only [extAdd, if_neg h, List.map_cons]
      rw [ih]
      by_cases hm : k ∈ tl.map Prod.fst
      · simp [hm, Ne.symm h]
      · simp [hm, Ne.symm h]

theorem mem_extAdd_keys (m : List (String × Nat)) (k e : String) :
    e ∈ (extAdd m k).map Prod.fst ↔ e ∈ m.map Prod.fst ∨ e = k := by
  rw [extAdd_keys]
  split_ifs with h
  · constructor
    · exact Or.inl
    · rintro (h1 | rfl)
      · exact h1
      · exact h
  · simp [List.mem_append]

theorem nodup_extAdd_keys (m : List (String × Nat)) (k : String)
    (h : (m.map Prod.fst).Nodup) : ((extAdd m k).map Prod.fst).Nodup := by
  rw [extAdd_keys]
  split_ifs with hm
  · exact h
  · simp [List.nodup_append, h, hm]

theorem foldl_extStep_nodup (staged : List (Char × String)) (exts0 : List (String × Nat))
    (h : (exts0.map Prod.fst).Nodup) :
    ((staged.foldl extStep exts0).map Prod.fst).Nodup := by
  induction staged generalizing exts0 with
  | nil => exact h
  | cons sf rest ih =>
    rw [List.foldl_cons]
    apply ih
    unfold extStep
    split_ifs with hs
    · exact nodup_extAdd_keys _ _ h
    · exact h

theorem mem_foldl_extStep (staged : List (Char × String)) (exts0 : List (String × Nat))
    (e : String) :
    e ∈ (staged.foldl extStep exts0).map Prod.fst ↔
      e ∈ exts0.map Prod.fst ∨ ∃ sf ∈ staged, extOf sf.2 = e ∧ e ≠ "" := by
  induction staged generalizing exts0 with
  | nil => simp
  | cons sf rest ih =>
    rw [List.foldl_cons, ih]
    unfold extStep
    split_ifs with hs
    · rw [mem_extAdd_keys]
      constructor
      · rintro ((h1 | rfl) | h2)
        · exact Or.inl h1
        · exact Or.inr ⟨sf, List.mem_cons_self _ _, rfl, hs⟩
        · obtain ⟨x, hx, hxe, hxne⟩ := h2
          exact Or.inr ⟨x, List.mem_cons_of_mem _ hx, hxe, hxne⟩
      · rintro (h1 | ⟨x, hx, hxe, hxne⟩)
        · exact Or.inl (Or.inl h1)
        · rcases List.mem_cons.mp hx with rfl | hx'
          · exact Or.inl (Or.inr hxe.symm)
          · exact Or.inr ⟨x, hx', hxe, hxne⟩
    · rw [not_not] at hs
      constructor
      · rintro (h1 | h2)
        · exact Or.inl h1
        · obtain ⟨x, hx, hxe, hxne⟩ := h2
          exact Or.inr ⟨x, List.mem_cons_of_mem _ hx, hxe, hxne⟩
      · rintro (h1 | ⟨x, hx, hxe, hxne⟩)
        · exact Or.inl h1
        · rcases List.mem_cons.mp hx with rfl | hx'
          · rw [hxe] at hs
            exact absurd hs hxne
          · exact Or.inr ⟨x, hx', hxe, hxne⟩

theorem eq_singleton_of_forall_mem {l : List String} {e : String}
    (hn : l.Nodup) (h : ∀ x, x ∈ l ↔ x = e) : l = [e] := by
  cases l with
  | nil => exact absurd ((h e).mpr rfl) (List.not_mem_nil e)
  | cons x xs =>
    have hx : x = e := (h x).mp (List.mem_cons_self _ _)
    subst hx
    cases xs with
    | nil => rfl
    | cons y ys =>
      have hy : y = x := (h y).mp (List.mem_cons_of_mem _ (List.mem_cons_self _ _))
      subst hy
      exact absurd (List.mem_cons_self _ _) (List.nodup_cons.mp hn).1

theorem map_fst_singleton {exts : List (String × Nat)} {e : String}
    (h : exts.map Prod.fst = [e]) : ∃ n, exts = [(e, n)] := by
  cases exts with
  | nil => cases h
  | cons p tl =>
    cases tl with
    | nil =>
      obtain ⟨k, n⟩ := p
      simp only [List.map_cons, List.map_nil, List.cons.injEq, and_true] at h
      exact ⟨n, by rw [h]⟩
    | cons q tl2 => simp at h

/-- Claim C9, counterexample: the claim determines scope from the files
bucketed under a recognized status; in fact the classifier tallies the
extensions of every staged file regardless of status, so an added `.py`
file together with a `T`-status `.js` file has scope absent (two distinct
extensions) and yields `"Add 1 files"`, while the claim's classified-files
reading would give scope `"Python"`. -/
theorem C9_cex :
    scopeClaim [('A', "a.py"), ('T', "b.js")] = some "Python" ∧
    scope_of (categorize_changes [('A', "a.py"), ('T', "b.js")]).2 = none ∧
    analyze_changes [('A', "a.py"), ('T', "b.js")] = "Add 1 files" := ⟨rfl, rfl, rfl⟩

/-- Claim C9 (amended: the single extension is sought across all files of
the ChangeSet, not only the classified ones): scope is present exactly when
one extension is shared by every file that has one (and at least one file
has one), mapped through the fixed table — `extTable` returns `none`
outside the whitelist, making scope absent otherwise — and three added
`.py` files yield `"Add Python files"`. -/
theorem C9_amended (staged : List (Char × String)) :
    (∀ sc, scope_of (categorize_changes staged).2 = some sc →
      ∃ e, extTable e = some sc ∧ e ≠ "" ∧ (∃ sf ∈ staged, extOf sf.2 = e) ∧
        ∀ sf ∈ staged, extOf sf.2 = "" ∨ extOf sf.2 = e) ∧
    (∀ e, e ≠ "" → (∀ sf ∈ staged, extOf sf.2 = "" ∨ extOf sf.2 = e) →
      (∃ sf ∈ staged, extOf sf.2 = e) →
      scope_of (categorize_changes staged).2 = extTable e) ∧
    analyze_changes [('A', "a.py"), ('A', "b.py"), ('A', "c.py")] = "Add Python files" := by
  have hsnd : (categorize_changes staged).2 = staged.foldl extStep [] := by
    unfold categorize_changes
    exact categorize_foldl_snd staged _
  have hnodup := foldl_extStep_nodup staged [] (by simp)
  have hmem : ∀ e, e ∈ (staged.foldl extStep []).map Prod.fst ↔
      ∃ sf ∈ staged, extOf sf.2 = e ∧ e ≠ "" := by
    intro e
    rw [mem_foldl_extStep]
    simp
  refine ⟨?_, ?_, rfl⟩
  · intro sc hsc
    rw [hsnd] at hsc
    cases hexts : staged.foldl extStep [] with
    | nil => rw [hexts] at hsc; cases hsc
    | cons p tl =>
      cases tl with
      | nil =>
        obtain ⟨e, n⟩ := p
        rw [hexts] at hsc
        have htab : extTable e = some sc := hsc
        have he_mem : e ∈ (staged.foldl extStep []).map Prod.fst := by
          rw [hexts]
          exact List.mem_cons_self _ _
        obtain ⟨sf, hsf, hsfe, hene⟩ := (hmem e).mp he_mem
        refine ⟨e, htab, hene, ⟨sf, hsf, hsfe⟩, ?_⟩
        intro x hx
        by_cases hxe : extOf x.2 = ""
        · exact Or.inl hxe
        · right
          have hxmem : extOf x.2 ∈ (staged.foldl extStep []).map Prod.fst :=
            (hmem _).mpr ⟨x, hx, rfl, hxe⟩
          rw [hexts] at hxmem
          simpa using hxmem
      | cons q tl2 =>
        rw [hexts] at hsc
        cases hsc
  · intro e hene hall hex
    have hkeys : (staged.foldl extStep []).map Prod.fst = [e] := by
      apply eq_singleton_of_forall_mem hnodup
      intro x
      rw [hmem x]
      constructor
      · rintro ⟨sf, hsf, hsfe, hxne⟩
        rcases hall sf hsf with h0 | h0
        · rw [h0] at hsfe
          exact absurd hsfe.symm hxne
        · rw [← hsfe, h0]
      · rintro rfl
        obtain ⟨sf, hsf, hsfe⟩ := hex
        exact ⟨sf, hsf, hsfe, hene⟩
    obtain ⟨n, hn⟩ := map_fst_singleton hkeys
    rw [hsnd, hn]
    rfl

/-- Claim C9, witness: a single added `.py` file gets the table scope. -/
theorem C9_witness :
    scope_of (categorize_changes [('A', "a.py")]).2 = extTable "py" :=
  (C9_amended [('A', "a.py")]).2.1 "py" (by decide) (by decide) (by decide)

end GitAutoCommit
